import Mathlib

/-!
Shallow embedding of `pi_lottery_miner.py` (Pi Lottery Miner, Touch v3).

Modelling conventions:
* Python floats are modelled as rationals (`ℚ`); `math.exp` is modelled by
  `Real.exp`, so probability values live in `ℝ`.
* A Python value that may be `None` is an `Option`.
* The float value `inf` that `expected_time_s` can return is modelled by the
  dedicated constructor `TimeVal.inf`; `math.isfinite` is constructor analysis.
* A value obtained from an external request is passed in as a parameter: `none`
  means the request (or the `float`/`int` conversion of its body) raised.
-/

namespace PiLotteryMiner

/-- Result type of `expected_time_s`: either the float `inf` (the only
non-finite value the function can produce) or a finite value. -/
inductive TimeVal where
  | inf : TimeVal
  | fin : ℚ → TimeVal
  deriving DecidableEq

/-- Embeds `net_hps_from_diff`: `d * (2**32) / 600.0`. -/
def net_hps_from_diff (d : ℚ) : ℚ := d * 2 ^ 32 / 600

/-- Embeds `expected_time_s`.  The Python guard is `hps<=0 or not diff`;
`not diff` is true exactly when `diff` is `None` or equals `0`, which is
`diff.getD 0 = 0` here.  Otherwise returns `diff * (2**32) / hps`. -/
def expected_time_s (hps : ℚ) (diff : Option ℚ) : TimeVal :=
  if hps ≤ 0 ∨ diff.getD 0 = 0 then .inf
  else .fin (diff.getD 0 * 2 ^ 32 / hps)

/-- Embeds `prob_in_window`: `t = expected_time_s(hps, diff)`; if `t` is not
finite or `t <= 0` return `0.0`; else `lam = seconds / t`; return `lam` when
`lam < 1e-6` and `1.0 - math.exp(-lam)` otherwise. -/
noncomputable def prob_in_window (hps : ℚ) (diff : Option ℚ) (seconds : ℚ) : ℝ :=
  match expected_time_s hps diff with
  | .inf => 0
  | .fin t =>
    if t ≤ 0 then 0
    else
      let lam := seconds / t
      if lam < 1 / 1000000 then (lam : ℝ) else 1 - Real.exp (-(lam : ℝ))

/-- Result of one invocation of `fetch_difficulty_and_height`.  The exception
text interpolated into the Python status strings is abstracted away; the
`heightAttempted` field records whether the height HTTP GET was issued. -/
structure FetchResult where
  difficulty : Option ℚ
  height : Option ℤ
  status : String
  heightAttempted : Bool
  deriving DecidableEq

/-- Embeds `fetch_difficulty_and_height`.  `requestsAvailable` models
`requests is not None`; `dGET` (resp. `hGET`) is the outcome of the difficulty
(resp. height) HTTP GET, `none` meaning the request or the numeric conversion
of its body raised.  The Python code returns `None, None, ...` from inside the
difficulty `except` block, so the height request is only issued after the
difficulty request succeeded. -/
def fetch_difficulty_and_height (requestsAvailable : Bool) (dGET : Option ℚ)
    (hGET : Option ℤ) : FetchResult :=
  if ¬ requestsAvailable then ⟨none, none, "requests missing", false⟩
  else
    match dGET with
    | none => ⟨none, none, "difficulty err", false⟩
    | some d =>
      match hGET with
      | none => ⟨some d, none, "height err", true⟩
      | some h => ⟨some d, some h, "OK", true⟩

/-- Python dictionary lookup on an association list model of the parsed daemon
response.  A value is `some q` when `float(...)` on it succeeds with `q`, and
`none` when the conversion raises. -/
def lookup : List (String × Option ℚ) → String → Option (Option ℚ)
  | [], _ => none
  | (k, v) :: rest, key => if k = key then some v else lookup rest key

/-- Priority list of keys hard-coded in `get_bfgminer_hashrate_hps`. -/
def priorityKeys : List String :=
  ["MHS av", "MHS 5s", "MHS 1m", "MHS 5m", "MHS 15m", "GHS av", "KHS 5s", "KHS av"]

/-- Model of Python `str.startswith` over the character lists of the two
strings (Lean's own `String.startsWith` does not reduce in the kernel). -/
def pyStartsWith (key pre : String) : Bool := pre.toList.isPrefixOf key.toList

/-- Unit factor from `get_bfgminer_hashrate_hps`:
`1e6 if key.startswith("MHS") else (1e9 if key.startswith("GHS") else 1e3)`. -/
def keyFactor (key : String) : ℚ :=
  if pyStartsWith key "MHS" then 1000000
  else if pyStartsWith key "GHS" then 1000000000
  else 1000

/-- First phase of `get_bfgminer_hashrate_hps`: walk the priority keys; an
absent key, or a present key whose value fails `float(...)` (the `except`
clause is `pass`), falls through to the next key. -/
def tryKeys : List String → List (String × Option ℚ) → Option (ℚ × String)
  | [], _ => none
  | k :: ks, resp =>
    match lookup resp k with
    | none => tryKeys ks resp
    | some none => tryKeys ks resp
    | some (some v) => some (v * keyFactor k, "BFGMiner API")

/-- Embeds `get_bfgminer_hashrate_hps`.  The argument is the result of
`query_cgminer_api` (`none` on connection failure, otherwise the parsed
key/value map).  `Except.error ()` marks an uncaught Python exception: the
bare-`KHS`/`GHS` conversions `float(resp["KHS"])*1e3` and
`float(resp["GHS"])*1e9` are outside any `try`. -/
def get_bfgminer_hashrate_hps (resp : Option (List (String × Option ℚ))) :
    Except Unit (ℚ × String) :=
  match resp with
  | none => .ok (0, "BFGMiner API (no data)")
  | some r =>
    if r = [] then .ok (0, "BFGMiner API (no data)")
    else
      match tryKeys priorityKeys r with
      | some out => .ok out
      | none =>
        match lookup r "KHS" with
        | some (some v) => .ok (v * 1000, "BFGMiner API")
        | some none => .error ()
        | none =>
          match lookup r "GHS" with
          | some (some v) => .ok (v * 1000000000, "BFGMiner API")
          | some none => .error ()
          | none => .ok (0, "BFGMiner API (no data)")

/-- Full key order of the adapter, used to state the priority claim: the eight
priority keys followed by bare `KHS` and bare `GHS`. -/
def fullKeyOrder : List String := priorityKeys ++ ["KHS", "GHS"]

/-- Specification-side helper: the first key of the full priority order that
is present in the response. -/
def firstPresentKey (r : List (String × Option ℚ)) : Option String :=
  fullKeyOrder.find? (fun k => (lookup r k).isSome)

/-- Embeds the append-and-prune step of `TouchApp._miner_loop`:
`self.graph_data.append((now, g_hps)); cutoff = now - 300;
self.graph_data = [(t, v) for (t, v) in self.graph_data if t >= cutoff]`. -/
def prune_insert (data : List (ℚ × ℚ)) (now v : ℚ) : List (ℚ × ℚ) :=
  (data ++ [(now, v)]).filter (fun tv => now - 300 ≤ tv.1)

/-- Cached network fields of `TouchApp` written by `_network_loop`. -/
structure NetCache where
  difficulty : Option ℚ
  net_hps : Option ℚ
  height : Option ℤ
  deriving DecidableEq

/-- Embeds the body of one `_network_loop` iteration applied to the fetched
pair `(d, h)`: `if d is not None: self.difficulty = d;
self.net_hps = net_hps_from_diff(d)` then `if h is not None: self.height = h`. -/
def network_iteration (c : NetCache) (d : Option ℚ) (h : Option ℤ) : NetCache :=
  let c1 := match d with
    | some dv => { c with difficulty := some dv, net_hps := some (net_hps_from_diff dv) }
    | none => c
  match h with
  | some hv => { c1 with height := some hv }
  | none => c1

/-- Body written by `WebHandler.do_GET`, by case. -/
inductive WebBody where
  | dashboard : WebBody
  | statsJson : WebBody
  | empty : WebBody
  deriving DecidableEq

/-- HTTP response issued by `WebHandler.do_GET`: status code, optional
`Content-Type` header value, and which body is written. -/
structure WebResponse where
  status : ℕ
  contentType : Option String
  body : WebBody
  deriving DecidableEq

/-- Embeds `WebHandler.do_GET`: the dashboard HTML for `"/"` or any path for
which `self.path.startswith("/index")` holds; the stats snapshot for
`"/stats.json"`; otherwise `send_response(404); end_headers()` — a 404 with no
`Content-Type` header and an empty body. -/
def do_GET (path : String) : WebResponse :=
  if path = "/" ∨ pyStartsWith path "/index" then
    ⟨200, some "text/html; charset=utf-8", .dashboard⟩
  else if path = "/stats.json" then
    ⟨200, some "application/json; charset=utf-8", .statsJson⟩
  else ⟨404, none, .empty⟩

/-- Python `int()` truncation toward zero on a rational (Lean's `Int`
division already truncates toward zero). -/
def pytrunc (q : ℚ) : ℤ := q.num / (q.den : ℤ)

/-- Whole years in `human_duration`: `int(seconds // (365*86400))`; `//` on
floats is floor division. -/
def yearsOf (s : ℚ) : ℤ := ⌊s / 31536000⌋

/-- Seconds remaining after `seconds -= years * 365*86400`. -/
def afterYears (s : ℚ) : ℚ := s - yearsOf s * 31536000

/-- Whole days: `int(seconds // 86400)` on the post-years remainder. -/
def daysOf (s : ℚ) : ℤ := ⌊afterYears s / 86400⌋

/-- Seconds remaining after `seconds -= days*86400`. -/
def afterDays (s : ℚ) : ℚ := afterYears s - daysOf s * 86400

/-- Whole hours: `int(seconds // 3600)` on the post-days remainder. -/
def hoursOf (s : ℚ) : ℤ := ⌊afterDays s / 3600⌋

/-- Seconds remaining after `seconds -= hours*3600`. -/
def afterHours (s : ℚ) : ℚ := afterDays s - hoursOf s * 3600

/-- Whole minutes: `int(seconds // 60)` on the post-hours remainder. -/
def minutesOf (s : ℚ) : ℤ := ⌊afterHours s / 60⌋

/-- Leftover seconds: `sec = int(seconds - minutes*60)` (truncating `int`). -/
def secOf (s : ℚ) : ℤ := pytrunc (afterHours s - minutesOf s * 60)

/-- Character of a single decimal digit. -/
def digitChar (d : ℕ) : Char := Char.ofNat (48 + d)

/-- Decimal digit characters of `n`, least significant first. -/
def revDigits (n : ℕ) : List Char := (Nat.digits 10 n).map digitChar

/-- Decimal string of a natural number (Python `str`'s rendering). -/
def natDecimalStr (n : ℕ) : String :=
  if n = 0 then "0" else ⟨(revDigits n).reverse⟩

/-- Decimal string of an integer. -/
def intDecimalStr (z : ℤ) : String :=
  if z < 0 then "-" ++ natDecimalStr z.natAbs else natDecimalStr z.natAbs

/-- Insert a `.` after every three characters of a least-significant-first
digit list: the grouping of `f"{years:,}".replace(",", ".")` seen from the
right end of the number. -/
def groupRev : List Char → List Char
  | c1 :: c2 :: c3 :: c4 :: rest => c1 :: c2 :: c3 :: '.' :: groupRev (c4 :: rest)
  | l => l

/-- Thousands-grouped decimal rendering with `.` as separator, embedding
`f"{years:,}".replace(",", ".")`. -/
def groupThousands (n : ℕ) : String :=
  if n = 0 then "0" else ⟨(groupRev (revDigits n)).reverse⟩

/-- Parts list built by the breakdown branch of `human_duration`: each nonzero
component is appended in y/d/h/m/s order while fewer than three parts have
been collected (the `years` append needs no length guard: the list is empty
there). -/
def durationParts (s : ℚ) : List String :=
  let p0 : List String := []
  let p1 := if yearsOf s ≠ 0 then p0 ++ [intDecimalStr (yearsOf s) ++ "y"] else p0
  let p2 := if daysOf s ≠ 0 ∧ p1.length < 3 then
    p1 ++ [intDecimalStr (daysOf s) ++ "d"] else p1
  let p3 := if hoursOf s ≠ 0 ∧ p2.length < 3 then
    p2 ++ [intDecimalStr (hoursOf s) ++ "h"] else p2
  let p4 := if minutesOf s ≠ 0 ∧ p3.length < 3 then
    p3 ++ [intDecimalStr (minutesOf s) ++ "m"] else p3
  if secOf s ≠ 0 ∧ p4.length < 3 then p4 ++ [intDecimalStr (secOf s) ++ "s"] else p4

/-- Embeds `human_duration`.  The argument is `none` when the Python float is
non-finite (`nan`/`inf`); for a finite float, `not seconds` is `seconds == 0`.
The em-dash placeholder, the ≥ 10000-years grouped rendering, and the
up-to-three-component breakdown follow the Python code line by line. -/
def human_duration : Option ℚ → String
  | none => "—"
  | some s =>
    if s = 0 then "—"
    else if 10000 ≤ yearsOf s then groupThousands (yearsOf s).toNat ++ " years"
    else
      let parts := durationParts s
      if parts = [] then "0s" else String.intercalate " " parts

/-- Specification-side component list for the breakdown branch: the five
components with their unit suffixes, in descending y/d/h/m/s order. -/
def specComponents (s : ℚ) : List (ℤ × String) :=
  [(yearsOf s, "y"), (daysOf s, "d"), (hoursOf s, "h"),
    (minutesOf s, "m"), (secOf s, "s")]

/-- Specification-side rendering of the nonzero components, in order. -/
def specParts (s : ℚ) : List String :=
  ((specComponents s).filter (fun p => p.1 ≠ 0)).map
    (fun p => intDecimalStr p.1 ++ p.2)

end PiLotteryMiner

namespace PiLotteryMiner

/-- C4 counterexample: at `hps = 1` (not ≤ 0) and a present difficulty `some 0`,
the claim predicts the finite value `0 * 2^32 / 1`, but `expected_time_s`
returns `inf` (Python's `not diff` is true for `diff == 0`). -/
theorem C4_counterexample_zero_difficulty :
    ¬ ((1 : ℚ) ≤ 0) ∧ (some (0 : ℚ)) ≠ (none : Option ℚ) ∧
      expected_time_s 1 (some 0) = TimeVal.inf ∧
      TimeVal.inf ≠ TimeVal.fin ((0 : ℚ) * 2 ^ 32 / 1) := by
  refine ⟨by norm_num, by simp, ?_, by simp⟩
  unfold expected_time_s
  rw [if_pos]
  simp [Option.getD]

/-- C4 (amended): `expected_time_s` returns `inf` iff `hps ≤ 0` or the
difficulty is absent or equal to `0`; otherwise it returns
`diff * 2^32 / hps`; in particular `expected_time_s 0 (some d) = inf` for
every positive `d`. -/
theorem C4_expected_time_cases (hps : ℚ) (diff : Option ℚ) :
    ((hps ≤ 0 ∨ diff.getD 0 = 0) → expected_time_s hps diff = TimeVal.inf) ∧
    (0 < hps → ∀ d, diff = some d → d ≠ 0 →
      expected_time_s hps diff = TimeVal.fin (d * 2 ^ 32 / hps)) ∧
    (∀ d : ℚ, 0 < d → expected_time_s 0 (some d) = TimeVal.inf) := by
  refine ⟨fun h => ?_, fun hh d hd hd0 => ?_, fun d _ => ?_⟩
  · unfold expected_time_s; rw [if_pos h]
  · subst hd
    unfold expected_time_s
    rw [if_neg]
    · simp [Option.getD]
    · simp [Option.getD, hd0, not_le.mpr hh]
  · unfold expected_time_s; rw [if_pos (Or.inl le_rfl)]

/-- C4 witness: the amended theorem applied at `hps = 2`, `diff = some 3`. -/
theorem C4_expected_time_cases_witness :
    (0 : ℚ) < 2 ∧ (3 : ℚ) ≠ 0 ∧
      expected_time_s 2 (some 3) = TimeVal.fin (3 * 2 ^ 32 / 2) :=
  ⟨by norm_num, by norm_num,
    (C4_expected_time_cases 2 (some 3)).2.1 (by norm_num) 3 rfl (by norm_num)⟩

/-- Helper: under the branch guards, `prob_in_window` is the two-branch formula
in `lam = seconds / (d * 2^32 / hps)`. -/
theorem prob_in_window_eq (hps d seconds : ℚ) (hh : ¬ hps ≤ 0) (hd : d ≠ 0)
    (ht : ¬ d * 2 ^ 32 / hps ≤ 0) :
    prob_in_window hps (some d) seconds =
      (if seconds / (d * 2 ^ 32 / hps) < 1 / 1000000
        then ((seconds / (d * 2 ^ 32 / hps) : ℚ) : ℝ)
        else 1 - Real.exp (-((seconds / (d * 2 ^ 32 / hps) : ℚ) : ℝ))) := by
  have hguard : ¬ (hps ≤ 0 ∨ (some d).getD 0 = 0) := by
    simp [Option.getD, hd, hh]
  unfold prob_in_window expected_time_s
  rw [if_neg hguard]
  simp only [Option.getD]
  rw [if_neg ht]

/-- C3 counterexample: with `hps = 2^32`, `diff = 1` (expected time `1`),
`window_seconds = 1e-6 - 1e-13` lies in the linear branch and returns its own
`lam`, while the larger `window_seconds = 1e-6` hits the `1 - exp(-lam)`
branch and returns the strictly smaller `1 - exp(-1e-6)`: the function is not
(strictly) increasing across the `lam = 1e-6` branch boundary. -/
theorem C3_counterexample_branch_boundary :
    (1 / 1000000 - 1 / 10000000000000 : ℚ) < 1 / 1000000 ∧
      prob_in_window (2 ^ 32) (some 1) (1 / 1000000) <
        prob_in_window (2 ^ 32) (some 1) (1 / 1000000 - 1 / 10000000000000) := by
  have ht : ¬ (1 : ℚ) * 2 ^ 32 / 2 ^ 32 ≤ 0 := by norm_num
  have e2 := prob_in_window_eq (2 ^ 32) 1 (1 / 1000000) (by norm_num) (by norm_num) ht
  have e1 := prob_in_window_eq (2 ^ 32) 1 (1 / 1000000 - 1 / 10000000000000)
    (by norm_num) (by norm_num) ht
  rw [if_neg (by norm_num)] at e2
  rw [if_pos (by norm_num)] at e1
  refine ⟨by norm_num, ?_⟩
  rw [e1, e2]
  have hcast1 : (((1 / 1000000 - 1 / 10000000000000 : ℚ) / (1 * 2 ^ 32 / 2 ^ 32) : ℚ) : ℝ)
      = 1 / 1000000 - 1 / 10000000000000 := by
    norm_num
  have hcast2 : (((1 / 1000000 : ℚ) / (1 * 2 ^ 32 / 2 ^ 32) : ℚ) : ℝ) = 1 / 1000000 := by
    norm_num
  rw [hcast1, hcast2]
  set x : ℝ := 1 / 1000000 with hxdef
  have hx : (0 : ℝ) ≤ 1 - x / 2 := by norm_num [hxdef]
  have h1 : 1 - x / 2 ≤ Real.exp (-(x / 2)) := by
    have := Real.add_one_le_exp (-(x / 2)); linarith
  have h2 : (1 - x / 2) * (1 - x / 2) ≤ Real.exp (-(x / 2)) * Real.exp (-(x / 2)) :=
    mul_self_le_mul_self hx h1
  have h3 : Real.exp (-(x / 2)) * Real.exp (-(x / 2)) = Real.exp (-x) := by
    rw [← Real.exp_add]
    congr 1
    ring
  have h4 : 1 - Real.exp (-x) ≤ x - x * x / 4 := by nlinarith [h2, h3]
  have h5 : x - x * x / 4 < x - 1 / 10000000000000 := by norm_num [hxdef]
  linarith

/-- C3 (amended): for fixed positive hashrate and difficulty,
`prob_in_window` vanishes at `window_seconds = 0` and is strictly increasing
in `window_seconds` within each branch of the `lam < 1e-6` test (it is not
strictly increasing across the branch boundary). -/
theorem C3_prob_window_monotone (hps d : ℚ) (hh : 0 < hps) (hd : 0 < d) :
    prob_in_window hps (some d) 0 = 0 ∧
    (∀ s1 s2 : ℚ, s1 < s2 → s2 / (d * 2 ^ 32 / hps) < 1 / 1000000 →
      prob_in_window hps (some d) s1 < prob_in_window hps (some d) s2) ∧
    (∀ s1 s2 : ℚ, 1 / 1000000 ≤ s1 / (d * 2 ^ 32 / hps) → s1 < s2 →
      prob_in_window hps (some d) s1 < prob_in_window hps (some d) s2) := by
  have ht : 0 < d * 2 ^ 32 / hps := by positivity
  have ht' : ¬ d * 2 ^ 32 / hps ≤ 0 := not_le.mpr ht
  have heq := fun s => prob_in_window_eq hps d s (not_le.mpr hh) (ne_of_gt hd) ht'
  refine ⟨?_, fun s1 s2 h12 h2 => ?_, fun s1 s2 h1 h12 => ?_⟩
  · rw [heq 0]
    rw [if_pos (by rw [zero_div]; norm_num)]
    norm_num
  · have hlam : s1 / (d * 2 ^ 32 / hps) < s2 / (d * 2 ^ 32 / hps) :=
      (div_lt_div_iff_of_pos_right ht).mpr h12
    rw [heq s1, heq s2, if_pos (lt_trans hlam h2), if_pos h2]
    exact_mod_cast hlam
  · have hlam : s1 / (d * 2 ^ 32 / hps) < s2 / (d * 2 ^ 32 / hps) :=
      (div_lt_div_iff_of_pos_right ht).mpr h12
    rw [heq s1, heq s2, if_neg (not_lt.mpr h1), if_neg (not_lt.mpr (le_trans h1 hlam.le))]
    have hcast : ((s1 / (d * 2 ^ 32 / hps) : ℚ) : ℝ) < ((s2 / (d * 2 ^ 32 / hps) : ℚ) : ℝ) := by
      exact_mod_cast hlam
    have := Real.exp_lt_exp.mpr (neg_lt_neg hcast)
    linarith

/-- C3 witness: the amended theorem at `hps = 2^32`, `d = 1`, comparing the
windows `0` and `1e-7`, both in the linear branch. -/
theorem C3_prob_window_monotone_witness :
    (0 : ℚ) < 2 ^ 32 ∧ (0 : ℚ) < 1 ∧
      prob_in_window (2 ^ 32) (some 1) 0 = 0 ∧
      ((0 : ℚ) < 1 / 10000000 ∧
        (1 / 10000000 : ℚ) / (1 * 2 ^ 32 / 2 ^ 32) < 1 / 1000000) ∧
      prob_in_window (2 ^ 32) (some 1) 0 < prob_in_window (2 ^ 32) (some 1) (1 / 10000000) :=
  ⟨by norm_num, by norm_num,
    (C3_prob_window_monotone (2 ^ 32) 1 (by norm_num) (by norm_num)).1,
    ⟨by norm_num, by norm_num⟩,
    (C3_prob_window_monotone (2 ^ 32) 1 (by norm_num) (by norm_num)).2.1 0 (1 / 10000000)
      (by norm_num) (by norm_num)⟩

/-- C10: a difficulty of exactly `0` is treated like an absent difficulty
(both give `inf`); a finite result forces `hps > 0` and a nonzero difficulty
and equals `diff * 2^32 / hps`; and `prob_in_window` returns `0` without
forming `seconds / t` whenever the expected time is `inf` or `≤ 0`. -/
theorem C10_division_guards :
    (∀ hps : ℚ, expected_time_s hps (some 0) = expected_time_s hps none ∧
      expected_time_s hps (some 0) = TimeVal.inf) ∧
    (∀ (hps : ℚ) (diff : Option ℚ) (t : ℚ), expected_time_s hps diff = TimeVal.fin t →
      0 < hps ∧ diff.getD 0 ≠ 0 ∧ t = diff.getD 0 * 2 ^ 32 / hps) ∧
    (∀ (hps : ℚ) (diff : Option ℚ) (s : ℚ), expected_time_s hps diff = TimeVal.inf →
      prob_in_window hps diff s = 0) ∧
    (∀ (hps : ℚ) (diff : Option ℚ) (s t : ℚ), expected_time_s hps diff = TimeVal.fin t →
      t ≤ 0 → prob_in_window hps diff s = 0) := by
  refine ⟨fun hps => ⟨?_, ?_⟩, fun hps diff t h => ?_, fun hps diff s h => ?_,
    fun hps diff s t h ht => ?_⟩
  · unfold expected_time_s; simp [Option.getD]
  · unfold expected_time_s; rw [if_pos (Or.inr (by simp [Option.getD]))]
  · unfold expected_time_s at h
    by_cases hg : hps ≤ 0 ∨ diff.getD 0 = 0
    · rw [if_pos hg] at h; exact absurd h (by simp)
    · rw [if_neg hg] at h
      push_neg at hg
      exact ⟨hg.1, hg.2, (TimeVal.fin.injEq _ _ ▸ h).symm⟩
  · unfold prob_in_window
    rw [h]
  · unfold prob_in_window
    rw [h]
    simp only [if_pos ht]

/-- C10 witness: with `hps = 1` and difficulty `-1` the expected time is the
finite but negative `-2^32`, and `prob_in_window` returns `0` there. -/
theorem C10_division_guards_witness :
    expected_time_s 1 (some (-1)) = TimeVal.fin (-4294967296) ∧
      ((-4294967296 : ℚ) ≤ 0) ∧ prob_in_window 1 (some (-1)) 5 = 0 := by
  have h : expected_time_s 1 (some (-1)) = TimeVal.fin (-4294967296) := by
    unfold expected_time_s
    rw [if_neg (by norm_num [Option.getD])]
    norm_num [Option.getD]
  exact ⟨h, by norm_num,
    C10_division_guards.2.2.2 1 (some (-1)) 5 (-4294967296) h (by norm_num)⟩

/-- Helper: a successful lookup exhibits a member of the association list. -/
theorem lookup_mem {r : List (String × Option ℚ)} {key : String} {w : Option ℚ}
    (h : lookup r key = some w) : (key, w) ∈ r := by
  induction r with
  | nil => simp [lookup] at h
  | cons kv rest ih =>
    obtain ⟨k, v⟩ := kv
    unfold lookup at h
    by_cases hk : k = key
    · rw [if_pos hk] at h
      cases h
      subst hk
      exact List.mem_cons_self _ _
    · rw [if_neg hk] at h
      exact List.mem_cons_of_mem _ (ih h)

/-- Helper: a successful lookup means the response is nonempty. -/
theorem lookup_ne_nil {r : List (String × Option ℚ)} {key : String} {w : Option ℚ}
    (h : lookup r key = some w) : r ≠ [] := by
  intro hr
  subst hr
  simp [lookup] at h

/-- Helper: the unit factor is positive for every key. -/
theorem keyFactor_pos (key : String) : 0 < keyFactor key := by
  unfold keyFactor
  split_ifs <;> norm_num

/-- Helper: if the first key of `ks` present in `r` is `k` and its value
parses to `v`, the priority walk returns `v` scaled by `k`'s factor. -/
theorem tryKeys_of_find {ks : List String} {r : List (String × Option ℚ)}
    {k : String} {v : ℚ}
    (hfind : ks.find? (fun s => (lookup r s).isSome) = some k)
    (hval : lookup r k = some (some v)) :
    tryKeys ks r = some (v * keyFactor k, "BFGMiner API") := by
  induction ks with
  | nil => simp at hfind
  | cons k0 ks ih =>
    by_cases hp : (lookup r k0).isSome
    · rw [List.find?_cons_of_pos _ (by simpa using hp)] at hfind
      cases hfind
      unfold tryKeys
      rw [hval]
    · rw [List.find?_cons_of_neg _ (by simpa using hp)] at hfind
      have h0 : lookup r k0 = none := by
        cases hl : lookup r k0 with
        | none => rfl
        | some w => rw [hl] at hp; simp at hp
      unfold tryKeys
      rw [h0]
      exact ih hfind

/-- Helper: if no key of `ks` is present in `r`, the priority walk fails. -/
theorem tryKeys_none_of_absent {ks : List String} {r : List (String × Option ℚ)}
    (h : ∀ k ∈ ks, lookup r k = none) : tryKeys ks r = none := by
  induction ks with
  | nil => rfl
  | cons k0 ks ih =>
    unfold tryKeys
    rw [h k0 (List.mem_cons_self _ _)]
    exact ih fun k hk => h k (List.mem_cons_of_mem _ hk)

/-- Helper: any successful priority walk returns a value of the response
scaled by its key's factor, labelled `"BFGMiner API"`. -/
theorem tryKeys_shape {ks : List String} {r : List (String × Option ℚ)}
    {q : ℚ} {s : String} (h : tryKeys ks r = some (q, s)) :
    ∃ k v, lookup r k = some (some v) ∧ q = v * keyFactor k ∧ s = "BFGMiner API" := by
  induction ks with
  | nil => simp [tryKeys] at h
  | cons k0 ks ih =>
    unfold tryKeys at h
    cases hl : lookup r k0 with
    | none => rw [hl] at h; exact ih h
    | some w =>
      cases w with
      | none => rw [hl] at h; exact ih h
      | some v =>
        rw [hl] at h
        cases h
        exact ⟨k0, v, hl, rfl, rfl⟩

/-- C5: the adapter extracts the rate from the first present key of the fixed
priority order (the eight prefixed keys, then bare `KHS`, then bare `GHS`),
provided that key's value parses; each key scales by its unit factor
(`MHS`-prefixed ×10^6, `GHS`-prefixed ×10^9, `KHS`-prefixed and bare ×10^3);
in particular a response with exactly `MHS 5s` and `KHS av` yields the
`MHS 5s` value ×10^6. -/
theorem C5_key_priority :
    (∀ (r : List (String × Option ℚ)) (k : String) (v : ℚ),
      firstPresentKey r = some k → lookup r k = some (some v) →
      get_bfgminer_hashrate_hps (some r) = .ok (v * keyFactor k, "BFGMiner API")) ∧
    (keyFactor "MHS av" = 1000000 ∧ keyFactor "MHS 5s" = 1000000 ∧
      keyFactor "MHS 1m" = 1000000 ∧ keyFactor "MHS 5m" = 1000000 ∧
      keyFactor "MHS 15m" = 1000000 ∧ keyFactor "GHS av" = 1000000000 ∧
      keyFactor "KHS 5s" = 1000 ∧ keyFactor "KHS av" = 1000 ∧
      keyFactor "KHS" = 1000 ∧ keyFactor "GHS" = 1000000000) ∧
    (∀ a b : ℚ,
      get_bfgminer_hashrate_hps (some [("MHS 5s", some a), ("KHS av", some b)]) =
        .ok (a * 1000000, "BFGMiner API")) := by
  refine ⟨fun r k v hfind hval => ?_, by decide, fun a b => ?_⟩
  · have hnil : r ≠ [] := lookup_ne_nil hval
    unfold firstPresentKey fullKeyOrder at hfind
    rw [List.find?_append] at hfind
    simp only [get_bfgminer_hashrate_hps]
    rw [if_neg hnil]
    cases hfp : priorityKeys.find? (fun s => (lookup r s).isSome) with
    | some k' =>
      rw [hfp, Option.or_some] at hfind
      cases hfind
      rw [tryKeys_of_find hfp hval]
    | none =>
      rw [hfp, Option.none_or] at hfind
      have habs : ∀ k' ∈ priorityKeys, lookup r k' = none := by
        intro k' hk'
        have := List.find?_eq_none.mp hfp k' hk'
        cases hl : lookup r k' with
        | none => rfl
        | some w => rw [hl] at this; simp at this
      rw [tryKeys_none_of_absent habs]
      by_cases hK : (lookup r "KHS").isSome
      · rw [List.find?_cons_of_pos _ (by simpa using hK)] at hfind
        cases hfind
        rw [hval]
        have hf : keyFactor "KHS" = 1000 := by decide
        rw [hf]
      · rw [List.find?_cons_of_neg _ (by simpa using hK)] at hfind
        have hKn : lookup r "KHS" = none := by
          cases hl : lookup r "KHS" with
          | none => rfl
          | some w => rw [hl] at hK; simp at hK
        rw [hKn]
        by_cases hG : (lookup r "GHS").isSome
        · rw [List.find?_cons_of_pos _ (by simpa using hG)] at hfind
          cases hfind
          rw [hval]
          have hf : keyFactor "GHS" = 1000000000 := by decide
          rw [hf]
        · rw [List.find?_cons_of_neg _ (by simpa using hG)] at hfind
          simp at hfind
  · rfl

/-- C5 witness: a response containing only `GHS av` selects that key; the
theorem is applied at that concrete response. -/
theorem C5_key_priority_witness :
    firstPresentKey [("GHS av", some 2)] = some "GHS av" ∧
      lookup [("GHS av", some 2)] "GHS av" = some (some 2) ∧
      get_bfgminer_hashrate_hps (some [("GHS av", some 2)]) =
        .ok (2 * keyFactor "GHS av", "BFGMiner API") :=
  ⟨rfl, rfl, C5_key_priority.1 [("GHS av", some 2)] "GHS av" 2 rfl rfl⟩

/-- C2 counterexample: a response whose bare `KHS` value does not parse makes
the poll raise (uncaught `float` conversion), and a parseable negative `MHS av`
value is returned as a negative hashrate — so the poll neither "never raises"
nor always returns a non-negative value. -/
theorem C2_counterexample_bare_khs :
    get_bfgminer_hashrate_hps (some [("KHS", none)]) = .error () ∧
      get_bfgminer_hashrate_hps (some [("MHS av", some (-1))]) =
        .ok (-1000000, "BFGMiner API") ∧
      (-1000000 : ℚ) < 0 := by
  refine ⟨rfl, ?_, by norm_num⟩
  have h1 : get_bfgminer_hashrate_hps (some [("MHS av", some (-1))]) =
      .ok ((-1) * keyFactor "MHS av", "BFGMiner API") := rfl
  have h2 : keyFactor "MHS av" = 1000000 := by decide
  rw [h1, h2]
  norm_num

/-- C2 (amended): the poll returns the no-data fallback on total failure, and
never raises provided any bare `KHS`/`GHS` value it reaches parses; the
returned hashrate is non-negative whenever the parsed response values are. -/
theorem C2_poll_no_raise :
    get_bfgminer_hashrate_hps none = .ok (0, "BFGMiner API (no data)") ∧
    (∀ r : List (String × Option ℚ),
      lookup r "KHS" ≠ some none → lookup r "GHS" ≠ some none →
      ∃ q s, get_bfgminer_hashrate_hps (some r) = .ok (q, s) ∧
        ((∀ kv ∈ r, ∀ v, kv.2 = some v → 0 ≤ v) → 0 ≤ q)) := by
  refine ⟨rfl, fun r hK hG => ?_⟩
  by_cases hr : r = []
  · subst hr
    exact ⟨0, "BFGMiner API (no data)", rfl, fun _ => le_refl 0⟩
  · simp only [get_bfgminer_hashrate_hps]
    rw [if_neg hr]
    cases htk : tryKeys priorityKeys r with
    | some out =>
      obtain ⟨q0, s0⟩ := out
      obtain ⟨k, v, hlv, hq, hs⟩ := tryKeys_shape htk
      refine ⟨q0, s0, rfl, fun hnn => ?_⟩
      have hv : 0 ≤ v := hnn (k, some v) (lookup_mem hlv) v rfl
      subst hq
      exact mul_nonneg hv (keyFactor_pos k).le
    | none =>
      cases hKl : lookup r "KHS" with
      | some w =>
        cases w with
        | none => exact absurd hKl hK
        | some v =>
          refine ⟨v * 1000, "BFGMiner API", rfl, fun hnn => ?_⟩
          have hv : 0 ≤ v := hnn ("KHS", some v) (lookup_mem hKl) v rfl
          exact mul_nonneg hv (by norm_num)
      | none =>
        cases hGl : lookup r "GHS" with
        | some w =>
          cases w with
          | none => exact absurd hGl hG
          | some v =>
            refine ⟨v * 1000000000, "BFGMiner API", rfl, fun hnn => ?_⟩
            have hv : 0 ≤ v := hnn ("GHS", some v) (lookup_mem hGl) v rfl
            exact mul_nonneg hv (by norm_num)
        | none => exact ⟨0, "BFGMiner API (no data)", rfl, fun _ => le_refl 0⟩

/-- C2 witness: the amended theorem applied at the one-entry response
`KHS 5s ↦ 4`, whose bare keys are absent (hence trivially parseable). -/
theorem C2_poll_no_raise_witness :
    lookup [("KHS 5s", some 4)] "KHS" ≠ some none ∧
      lookup [("KHS 5s", some 4)] "GHS" ≠ some none ∧
      ∃ q s, get_bfgminer_hashrate_hps (some [("KHS 5s", some 4)]) = .ok (q, s) ∧
        ((∀ kv ∈ [(("KHS 5s" : String), some (4 : ℚ))], ∀ v, kv.2 = some v → 0 ≤ v) →
          0 ≤ q) :=
  ⟨by decide, by decide,
    C2_poll_no_raise.2 [("KHS 5s", some 4)] (by decide) (by decide)⟩

/-- C1 counterexample: when the difficulty GET fails but the height GET would
have succeeded (here with value `5`), the fetcher does not attempt the height
GET at all and nevertheless reports the height field as absent. -/
theorem C1_counterexample_difficulty_fail :
    (fetch_difficulty_and_height true none (some 5)).heightAttempted = false ∧
      (fetch_difficulty_and_height true none (some 5)).height = none ∧
      (some (5 : ℤ)) ≠ (none : Option ℤ) := by
  refine ⟨rfl, rfl, by simp⟩

/-- C1 (amended): a difficulty failure short-circuits the fetch — the height
GET is not attempted and both fields come back absent; when the difficulty GET
succeeds the height GET is attempted, the difficulty value is returned
regardless of the height outcome, and the height field is absent exactly when
its own request failed. -/
theorem C1_fetch_sequencing (dGET : Option ℚ) (hGET : Option ℤ) :
    (dGET = none →
      fetch_difficulty_and_height true dGET hGET = ⟨none, none, "difficulty err", false⟩) ∧
    (∀ d, dGET = some d →
      (fetch_difficulty_and_height true dGET hGET).heightAttempted = true ∧
      (fetch_difficulty_and_height true dGET hGET).difficulty = some d ∧
      (hGET = none → (fetch_difficulty_and_height true dGET hGET).height = none ∧
        (fetch_difficulty_and_height true dGET hGET).status = "height err") ∧
      (∀ h, hGET = some h → (fetch_difficulty_and_height true dGET hGET).height = some h ∧
        (fetch_difficulty_and_height true dGET hGET).status = "OK")) := by
  constructor
  · rintro rfl
    rfl
  · rintro d rfl
    cases hGET with
    | none => exact ⟨rfl, rfl, fun _ => ⟨rfl, rfl⟩, fun h hh => by simp at hh⟩
    | some h => exact ⟨rfl, rfl, fun hh => by simp at hh, fun h' hh => by
        cases hh; exact ⟨rfl, rfl⟩⟩

/-- C1 witness: the amended theorem applied at a successful difficulty GET
(`7/2`) and a failed height GET. -/
theorem C1_fetch_sequencing_witness :
    (some (7 / 2 : ℚ)) = some (7 / 2 : ℚ) ∧ (none : Option ℤ) = none ∧
      (fetch_difficulty_and_height true (some (7 / 2)) none).heightAttempted = true ∧
      (fetch_difficulty_and_height true (some (7 / 2)) none).difficulty = some (7 / 2) ∧
      (fetch_difficulty_and_height true (some (7 / 2)) none).height = none ∧
      (fetch_difficulty_and_height true (some (7 / 2)) none).status = "height err" := by
  have h := (C1_fetch_sequencing (some (7 / 2)) none).2 (7 / 2) rfl
  exact ⟨rfl, rfl, h.1, h.2.1, (h.2.2.1 rfl).1, (h.2.2.1 rfl).2⟩

/-- C6: after every append-and-prune step, every retained point has timestamp
at least `now - 300`; a point lying exactly at `now - 300` is retained (the
cutoff is inclusive); inserting at `t = 0, 100, 200, 400` leaves exactly the
points with timestamp ≥ 100, and the first conjunct shows every further
insert keeps evicting aged-out entries. -/
theorem C6_sliding_window :
    (∀ (data : List (ℚ × ℚ)) (now v : ℚ) (p : ℚ × ℚ),
      p ∈ prune_insert data now v → now - 300 ≤ p.1) ∧
    (∀ (data : List (ℚ × ℚ)) (now v : ℚ) (p : ℚ × ℚ),
      p ∈ data ++ [(now, v)] → p.1 = now - 300 → p ∈ prune_insert data now v) ∧
    (∀ a b c d : ℚ,
      prune_insert (prune_insert (prune_insert (prune_insert [] 0 a) 100 b) 200 c) 400 d =
        [(100, b), (200, c), (400, d)]) := by
  refine ⟨fun data now v p hp => ?_, fun data now v p hp hpe => ?_, fun a b c d => ?_⟩
  · have h := (List.mem_filter.mp hp).2
    exact of_decide_eq_true h
  · exact List.mem_filter.mpr ⟨hp, decide_eq_true (le_of_eq hpe.symm)⟩
  · norm_num [prune_insert, List.filter_cons, List.filter_nil, decide_eq_true_eq]

/-- C6 witness: the inclusive-cutoff conjunct applied at the boundary point
`(100, 5)` with the new point inserted at time `400`. -/
theorem C6_sliding_window_witness :
    ((100 : ℚ), (5 : ℚ)) ∈ [((100 : ℚ), (5 : ℚ))] ++ [(400, 6)] ∧
      ((100 : ℚ), (5 : ℚ)).1 = 400 - 300 ∧
      ((100 : ℚ), (5 : ℚ)) ∈ prune_insert [(100, 5)] 400 6 :=
  ⟨by simp, by norm_num,
    C6_sliding_window.2.1 [(100, 5)] 400 6 (100, 5) (by simp) (by norm_num)⟩

/-- C7: a `None` difficulty (resp. height) in the fetched pair leaves the
cached difficulty and derived network hashrate (resp. the cached height)
unchanged, and a cached field is overwritten exactly by a freshly fetched
non-absent value. -/
theorem C7_network_cache_frame (c : NetCache) (d : Option ℚ) (h : Option ℤ) :
    (d = none → (network_iteration c d h).difficulty = c.difficulty ∧
      (network_iteration c d h).net_hps = c.net_hps) ∧
    (h = none → (network_iteration c d h).height = c.height) ∧
    (∀ dv, d = some dv → (network_iteration c d h).difficulty = some dv ∧
      (network_iteration c d h).net_hps = some (net_hps_from_diff dv)) ∧
    (∀ hv, h = some hv → (network_iteration c d h).height = some hv) := by
  cases d <;> cases h <;> simp [network_iteration]

/-- C7 witness: the theorem applied at a fully populated cache with an absent
difficulty and a fresh height `7`: difficulty and network hashrate survive,
the height is overwritten. -/
theorem C7_network_cache_frame_witness :
    (none : Option ℚ) = none ∧ (some (7 : ℤ)) = some 7 ∧
      (network_iteration ⟨some 10, some 20, some 30⟩ none (some 7)).difficulty = some 10 ∧
      (network_iteration ⟨some 10, some 20, some 30⟩ none (some 7)).net_hps = some 20 ∧
      (network_iteration ⟨some 10, some 20, some 30⟩ none (some 7)).height = some 7 :=
  ⟨rfl, rfl,
    ((C7_network_cache_frame ⟨some 10, some 20, some 30⟩ none (some 7)).1 rfl).1,
    ((C7_network_cache_frame ⟨some 10, some 20, some 30⟩ none (some 7)).1 rfl).2,
    (C7_network_cache_frame ⟨some 10, some 20, some 30⟩ none (some 7)).2.2.2 7 rfl⟩

/-- C8 counterexample: `"/index"` is neither `"/"` nor `"/stats.json"`, yet it
is served the dashboard with status 200, not a 404 with empty body. -/
theorem C8_counterexample_index_path :
    ("/index" : String) ≠ "/" ∧ ("/index" : String) ≠ "/stats.json" ∧
      do_GET "/index" = ⟨200, some "text/html; charset=utf-8", .dashboard⟩ ∧
      (do_GET "/index").status ≠ 404 ∧ (do_GET "/index").body ≠ WebBody.empty := by
  exact ⟨by decide, by decide, rfl, by decide, by decide⟩

/-- C8 (amended): `"/"` and every path starting with `"/index"` yield the
dashboard page; `"/stats.json"` yields status 200 with the snapshot body and a
`Content-Type` whose media type is `application/json` (with a charset
parameter); every other path yields status 404 with an empty body and no
`Content-Type`. -/
theorem C8_http_routes (path : String) :
    (path = "/" ∨ pyStartsWith path "/index" = true →
      do_GET path = ⟨200, some "text/html; charset=utf-8", .dashboard⟩) ∧
    (path = "/stats.json" →
      do_GET path = ⟨200, some "application/json; charset=utf-8", .statsJson⟩ ∧
      ∃ ct, (do_GET path).contentType = some ct ∧
        pyStartsWith ct "application/json" = true) ∧
    (path ≠ "/" → pyStartsWith path "/index" = false → path ≠ "/stats.json" →
      do_GET path = ⟨404, none, .empty⟩) := by
  refine ⟨fun hp => ?_, fun hp => ?_, fun h1 h2 h3 => ?_⟩
  · unfold do_GET
    rw [if_pos hp]
  · subst hp
    exact ⟨rfl, "application/json; charset=utf-8", rfl, by decide⟩
  · unfold do_GET
    rw [if_neg (by simp [h1, h2]), if_neg h3]

/-- C8 witness: the amended theorem's 404 clause applied at the path
`"/foo"`. -/
theorem C8_http_routes_witness :
    ("/foo" : String) ≠ "/" ∧ pyStartsWith "/foo" "/index" = false ∧
      ("/foo" : String) ≠ "/stats.json" ∧
      do_GET "/foo" = ⟨404, none, WebBody.empty⟩ :=
  ⟨by decide, by decide, by decide,
    (C8_http_routes "/foo").2.2 (by decide) (by decide) (by decide)⟩

/-- Helper: the sequential nonzero-and-under-three appends of `durationParts`
take exactly the first three nonzero components. -/
theorem durationParts_take (s : ℚ) : durationParts s = (specParts s).take 3 := by
  by_cases hy : yearsOf s = 0 <;> by_cases hd : daysOf s = 0 <;>
    by_cases hh : hoursOf s = 0 <;> by_cases hm : minutesOf s = 0 <;>
    by_cases hs : secOf s = 0 <;>
  simp [durationParts, specParts, specComponents, hy, hd, hh, hm, hs,
    List.filter_cons, List.take]

/-- Helper: every character produced for a single decimal digit is a digit. -/
theorem digitChar_isDigit : ∀ d < 10, (digitChar d).isDigit = true := by decide

/-- Helper: every character of the raw digit list is a digit character. -/
theorem revDigits_chars (n : ℕ) : ∀ c ∈ revDigits n, c.isDigit = true := by
  intro c hc
  obtain ⟨d, hd, rfl⟩ := List.mem_map.mp hc
  exact digitChar_isDigit d (Nat.digits_lt_base (by norm_num) hd)

/-- Helper: grouping only interleaves `.` separators among the input
characters. -/
theorem groupRev_chars : ∀ (l : List Char) (c : Char), c ∈ groupRev l → c ∈ l ∨ c = '.'
  | c1 :: c2 :: c3 :: c4 :: rest, c, hc => by
    rw [groupRev] at hc
    simp only [List.mem_cons] at hc ⊢
    rcases hc with h | h | h | h | h
    · exact Or.inl (Or.inl h)
    · exact Or.inl (Or.inr (Or.inl h))
    · exact Or.inl (Or.inr (Or.inr (Or.inl h)))
    · exact Or.inr h
    · rcases groupRev_chars (c4 :: rest) c h with h' | h'
      · simp only [List.mem_cons] at h'
        rcases h' with h' | h'
        · exact Or.inl (Or.inr (Or.inr (Or.inr (Or.inl h'))))
        · exact Or.inl (Or.inr (Or.inr (Or.inr (Or.inr h'))))
      · exact Or.inr h'
  | [], c, hc => Or.inl hc
  | [c1], c, hc => Or.inl hc
  | [c1, c2], c, hc => Or.inl hc
  | [c1, c2, c3], c, hc => Or.inl hc

/-- Helper: the grouped decimal rendering contains only digit characters and
`.` separators (in particular no unit suffixes). -/
theorem groupThousands_chars (n : ℕ) :
    ∀ c ∈ (groupThousands n).toList, c.isDigit = true ∨ c = '.' := by
  intro c hc
  unfold groupThousands at hc
  by_cases hn : n = 0
  · rw [if_pos hn] at hc
    left
    have : c = '0' := by simpa using hc
    rw [this]
    rfl
  · rw [if_neg hn] at hc
    have hc' : c ∈ (groupRev (revDigits n)).reverse := hc
    rw [List.mem_reverse] at hc'
    rcases groupRev_chars (revDigits n) c hc' with h | h
    · exact Or.inl (revDigits_chars n c h)
    · exact Or.inr h

/-- C9: `human_duration` yields the em-dash placeholder on `0` and non-finite
input; for positive durations of at least 10000 whole years it yields the
`.`-grouped year count suffixed `" years"` whose prefix consists only of
digits and separators (no smaller-unit components); otherwise it renders the
first at most three nonzero y/d/h/m/s components, or `"0s"` when every
component is zero. -/
theorem C9_human_duration_spec :
    (human_duration none = "—" ∧ human_duration (some 0) = "—") ∧
    (∀ s : ℚ, 0 < s → 10000 ≤ yearsOf s →
      human_duration (some s) = groupThousands (yearsOf s).toNat ++ " years" ∧
      ∀ c ∈ (groupThousands (yearsOf s).toNat).toList, c.isDigit = true ∨ c = '.') ∧
    (∀ s : ℚ, 0 < s → yearsOf s < 10000 →
      human_duration (some s) =
        if specParts s = [] then "0s"
        else String.intercalate " " ((specParts s).take 3)) := by
  refine ⟨⟨rfl, rfl⟩, fun s hs hy => ⟨?_, groupThousands_chars _⟩, fun s hs hy => ?_⟩
  · simp only [human_duration]
    rw [if_neg (ne_of_gt hs), if_pos hy]
  · simp only [human_duration]
    rw [if_neg (ne_of_gt hs), if_neg (not_le.mpr hy), durationParts_take]
    cases hsp : specParts s with
    | nil => simp
    | cons a l =>
      rw [if_neg (by simp), if_neg (by simp)]

/-- C9 witness: the breakdown clause applied at 90061 seconds
(one day, one hour, one minute, one second). -/
theorem C9_human_duration_spec_witness :
    (0 : ℚ) < 90061 ∧ yearsOf 90061 < 10000 ∧
      human_duration (some 90061) =
        (if specParts 90061 = [] then "0s"
          else String.intercalate " " ((specParts 90061).take 3)) :=
  ⟨by norm_num, by norm_num [yearsOf],
    C9_human_duration_spec.2.2 90061 (by norm_num) (by norm_num [yearsOf])⟩

end PiLotteryMiner
